import Mathlib

/-!
Verification of the memory-store lifecycle core of this repository.

The embedding below models `products/ctx_store.py` (class `ContextStore`:
`remember` / `save`, `mark_important`, `forget`, `_execute_safe` with its
silent read-only fallback) and the lifecycle methods of
`products/ctx.mgr.py` (`_decay_memory`, `_consolidate_memory`,
`_archive_old`, `_forget_old`, `_retrieve_from_archive`).

Modelling conventions:
- Time is an integer count of hours.  The lifecycle thresholds of the
  source (`hot_hours = 24`, `warm_days = 7`, `cold_days = 30`,
  `archive_days = 90`, `forget_days = 365`) become hour counts.
- Each Python `datetime.now()` read is modelled by `readClock`, which
  returns the current clock and advances it, so successive reads are
  distinct (as successive wall-clock reads are at the microsecond
  resolution of the source).  Two concurrent creations that observe the
  same wall clock are modelled by running `remember` on stores holding
  the same `clock` value.
- The source context id is the string `f"{type}_{timestamp}"`.  Since the
  rendered timestamp is a digit string without underscore, that string
  determines the pair (type, timestamp); ids are therefore modelled as
  that pair (`CtxId`).
- JSON metadata dictionaries are modelled by a record of optional fields,
  one per key the program ever writes; an absent key is `none`.
  `dict.get(k, d)` becomes `Option.getD`.
- The DuckDB table of contexts is a list of rows keyed by id (primary
  key), `INSERT OR REPLACE` is `insertOrReplace`, `DELETE WHERE id` is a
  filter, and `UPDATE ... WHERE id` maps over rows.  Archive YAML files
  are a list of `ArchiveEntry` keyed by id; the file modification time
  used by `_forget_old` is the `mtime` field, set by every file write.
- `_execute_safe` silently drops writes when the connection is read-only;
  this is the `readOnly` flag guarding every table write.
- Decay and importance values are rationals.
-/

namespace CtxSpec

/-- The `details` payload stored inside a context `content` JSON blob:
absent, plain text, or the consolidation summary dictionary
(`{'items': ..., 'count': ..., 'consolidated_at': ...}`) that
`_consolidate_memory` passes as the third argument of `store.save`. -/
inductive Details where
  | dnone : Details
  | dstr : String → Details
  | consolidated : List String → Nat → Int → Details
deriving DecidableEq

/-- The JSON metadata dictionary of a context row.  Each field is one key
the program may write; `none` means the key is absent from the JSON. -/
structure Metadata where
  importance : Option ℚ := none
  decay : Option ℚ := none
  decay_exempt : Option Bool := none
  decay_updated : Option Int := none
  items : Option (List String) := none
  itemCount : Option Nat := none
deriving DecidableEq

/-- A context id: the source string `f"{type}_{timestamp}"`, modelled as
the (type, timestamp) pair it encodes. -/
structure CtxId where
  ctype : String
  ts : Int
deriving DecidableEq

/-- The `content` JSON blob of a context row, as built by `remember`. -/
structure Content where
  what : String
  details : Details
  ctype : String
  whenT : Int
deriving DecidableEq

/-- One row of the `contexts` table. -/
structure Context where
  id : CtxId
  content : Content
  ctxType : String
  created_at : Int
  updated_at : Int
  metadata : Metadata
  dimension : String
  activation_score : ℚ
deriving DecidableEq

/-- One archived YAML file, as written by `_archive_old`: the content
dictionary of the context plus `archived_at`, `final_decay`,
`retrieval_count`, optionally `last_retrieved`; `mtime` is the file
modification time consulted by `_forget_old`. -/
structure ArchiveEntry where
  id : CtxId
  what : String
  details : Details
  ctype : String
  whenT : Int
  archived_at : Int
  final_decay : ℚ
  retrievalCount : Nat
  lastRetrieved : Option Int
  mtime : Int
deriving DecidableEq

/-- The whole persisted state: wall clock (hours), the read-only flag of
the singleton DuckDB connection, the `contexts` table, the archive
directory, and the set of per-context memory YAML files that
`_persist_to_file` writes under `base_path/{type}/{id}.yml` (keyed by
id; the archive directory nests inside the same `base_path`). -/
structure Store where
  clock : Int
  readOnly : Bool
  contexts : List Context
  archive : List ArchiveEntry
  files : List CtxId
deriving DecidableEq

/-- One `datetime.now()` read: returns the clock and advances it. -/
def readClock (s : Store) : Int × Store :=
  (s.clock, { s with clock := s.clock + 1 })

/-- `self.lifecycle['hot_hours'] = 24`. -/
def hotHours : Int := 24

/-- `self.lifecycle['warm_days'] = 7`, in hours. -/
def warmHours : Int := 7 * 24

/-- `self.lifecycle['cold_days'] = 30`, in hours. -/
def coldHours : Int := 30 * 24

/-- `self.lifecycle['archive_days'] = 90`. -/
def archiveDays : Nat := 90

/-- `self.lifecycle['forget_days'] = 365`. -/
def forgetDays : Nat := 365

/-- `self.decay['warm'] = 0.7`. -/
def decayWarm : ℚ := mkRat 7 10

/-- `self.decay['cold'] = 0.3`. -/
def decayCold : ℚ := mkRat 3 10

/-- DuckDB `INSERT OR REPLACE` into the primary-keyed `contexts` table:
replace the row carrying the same id, else append. -/
def insertOrReplace (l : List Context) (c : Context) : List Context :=
  if l.any (fun x => decide (x.id = c.id)) then
    l.map (fun x => if x.id = c.id then c else x)
  else l ++ [c]

/-- `ContextStore._persist_to_file`: write (or overwrite) the memory
YAML of one context id. -/
def insertFile (l : List CtxId) (i : CtxId) : List CtxId :=
  if i ∈ l then l else l ++ [i]

/-- `ContextStore.remember` (ctx_store.py): builds the id from type and
timestamp, the content dict `{what, details, type, when}`, metadata
`{"importance": 1.0}`, and issues `INSERT OR REPLACE`; on success
`_persist_to_file` also writes the memory YAML.  When the connection is
read-only `_execute_safe` silently drops the insert (so no file is
written either) and the id is still returned. -/
def remember (s : Store) (what : String) (details : Details) (ctype : String) :
    Store × CtxId :=
  let r := readClock s
  let cid : CtxId := ⟨ctype, r.1⟩
  let row : Context :=
    { id := cid
      content := ⟨what, details, ctype, r.1⟩
      ctxType := ctype
      created_at := r.1
      updated_at := r.1
      metadata := { importance := some 1 }
      dimension := ctype
      activation_score := 1 }
  if s.readOnly then (r.2, cid)
  else
    ({ r.2 with
       contexts := insertOrReplace r.2.contexts row
       files := insertFile r.2.files cid }, cid)

/-- `ContextStore.save` (ctx_store.py): delegates to `remember`. -/
def save (s : Store) (ctype : String) (what : String) (details : Details) :
    Store × CtxId :=
  remember s what details ctype

/-- `ContextStore.forget` (ctx_store.py): `DELETE FROM contexts WHERE id`
(silently dropped on a read-only connection), then
`base_path.rglob(f"{id}.yml").unlink()` — the recursive glob runs over
the whole base directory, so it deletes the memory YAML AND any same-id
archive YAML nested under `base_path/archive`. -/
def forgetCtx (s : Store) (i : CtxId) : Store :=
  let s1 := if s.readOnly then s
    else { s with contexts := s.contexts.filter (fun c => !(decide (c.id = i))) }
  { s1 with
    files := s1.files.filter (fun f => !(decide (f = i)))
    archive := s1.archive.filter (fun e => !(decide (e.id = i))) }

/-- `ContextStore.mark_important` (ctx_store.py): select the metadata of
the row, and when the row exists update its `importance` key; the update
is silently dropped on a read-only connection. -/
def markImportant (s : Store) (i : CtxId) (v : ℚ) : Store :=
  if s.contexts.any (fun c => decide (c.id = i)) then
    if s.readOnly then s
    else
      { s with
        contexts := s.contexts.map (fun c =>
          if c.id = i then
            { c with metadata := { c.metadata with importance := some v } }
          else c) }
  else s

/-- The decay value `_decay_memory` computes for one row: exempt rows get
1.0, else the chain `age > cold_days ↦ cold`, `age > warm_days ↦ warm`,
`age > hot_hours ↦ warm`, else `hot`. -/
def decayTarget (now : Int) (c : Context) : ℚ :=
  if c.metadata.decay_exempt.getD false then 1
  else if now - c.created_at > coldHours then decayCold
  else if now - c.created_at > warmHours then decayWarm
  else if now - c.created_at > hotHours then decayWarm
  else 1

/-- The per-row effect of `_decay_memory`: when the computed decay differs
from the current `meta.get('decay', 1.0)`, write `decay` and
`decay_updated` back into the metadata. -/
def decayCtx (now : Int) (c : Context) : Context :=
  if decayTarget now c ≠ c.metadata.decay.getD 1 then
    { c with
      metadata :=
        { c.metadata with
          decay := some (decayTarget now c)
          decay_updated := some now } }
  else c

/-- `_decay_memory` (ctx.mgr.py): one clock read, then a scan over all
rows applying `decayCtx`; returns the count of rows whose decay changed.
On a read-only connection every row update is silently dropped but the
count still accumulates. -/
def decayMemory (s : Store) : Store × Nat :=
  let r := readClock s
  let cnt := r.2.contexts.countP
    (fun c => decide (decayTarget r.1 c ≠ c.metadata.decay.getD 1))
  if s.readOnly then (r.2, cnt)
  else ({ r.2 with contexts := r.2.contexts.map (decayCtx r.1) }, cnt)

/-- Iterated `ApplyDecay` passes (keeping only the store). -/
def decayIter : Nat → Store → Store
  | 0, s => s
  | n + 1, s => decayIter n (decayMemory s).1

/-- `SELECT DISTINCT type FROM contexts`. -/
def distinctTypes (l : List Context) : List String :=
  (l.map (fun c => c.ctxType)).dedup

/-- The `what` string of the consolidated context. -/
def consolidatedWhat (t : String) : String :=
  "Consolidated " ++ t ++ " memories"

/-- Demotion applied by `_consolidate_memory` to each merged original:
`mark_important(ctx_id, 0.1)`. -/
def demoteIds (s : Store) (ids : List CtxId) : Store :=
  ids.foldl (fun st i => markImportant st i (mkRat 1 10)) s

/-- The per-type body of `_consolidate_memory`: query the cold rows of
the type ordered by `created_at`, and when more than 10 exist, merge all
but the 5 most recent into one new `{type}_consolidated` context whose
third `save` argument is the summary dictionary, then demote each merged
original to importance 0.1. -/
def consolidateType (cutoff : Int) (acc : Store × Nat) (t : String) :
    Store × Nat :=
  let s := acc.1
  let cold := List.insertionSort (fun a b => a.created_at ≤ b.created_at)
    (s.contexts.filter (fun c =>
      decide (c.ctxType = t) && decide (c.created_at < cutoff)))
  if 10 < cold.length then
    let merged := cold.take (cold.length - 5)
    let items := merged.map (fun c => c.content.what)
    let ids := merged.map (fun c => c.id)
    if items.isEmpty then acc
    else
      let r := readClock s
      let s2 := (save r.2 (t ++ "_consolidated") (consolidatedWhat t)
        (Details.consolidated (items.take 20) items.length r.1)).1
      (demoteIds s2 ids, acc.2 + ids.length)
  else acc

/-- `_consolidate_memory` (ctx.mgr.py): compute the cold cutoff once,
then run the per-type body over every distinct type. -/
def consolidateMemory (s : Store) : Store × Nat :=
  let r := readClock s
  (distinctTypes r.2.contexts).foldl (consolidateType (r.1 - coldHours)) (r.2, 0)

/-- The selection predicate of the `_archive_old` query:
`created_at < cutoff OR json decay < 0.2 OR json importance < 0.2`.
A missing JSON key makes its comparison NULL, hence not selected. -/
def archiveSelect (cutoff : Int) (c : Context) : Bool :=
  decide (c.created_at < cutoff)
  || (match c.metadata.decay with
      | some d => decide (d < mkRat 1 5)
      | none => false)
  || (match c.metadata.importance with
      | some v => decide (v < mkRat 1 5)
      | none => false)

/-- The archive YAML written by `_archive_old` for one row: the content
dict plus `archived_at = now`, `final_decay = meta.get('decay', 0.1)`,
`retrieval_count = 0`; the file write sets the mtime. -/
def mkArchiveEntry (now : Int) (c : Context) : ArchiveEntry :=
  { id := c.id
    what := c.content.what
    details := c.content.details
    ctype := c.content.ctype
    whenT := c.content.whenT
    archived_at := now
    final_decay := c.metadata.decay.getD (mkRat 1 10)
    retrievalCount := 0
    lastRetrieved := none
    mtime := now }

/-- Writing an archive file: overwrite the file of the same id, else add. -/
def insertArchive (l : List ArchiveEntry) (e : ArchiveEntry) :
    List ArchiveEntry :=
  if l.any (fun x => decide (x.id = e.id)) then
    l.map (fun x => if x.id = e.id then e else x)
  else l ++ [e]

/-- The error `shutil.move` raises when the computed destination file
already exists. -/
def moveError : String := "Destination path already exists"

/-- The per-row loop of `_archive_old`: write the archive YAML first
(one clock read for `archived_at`), then `shutil.move` the memory YAML
into the archive directory — since the destination file was just
written, the move RAISES whenever the memory YAML exists, aborting the
whole sweep with the row still active; only when no memory YAML exists
does `store.forget` run, whose recursive unlink then also destroys the
just-written archive YAML. -/
def archiveLoop : Store → Nat → List Context → Store × Except String Nat
  | st, n, [] => (st, Except.ok n)
  | st, n, c :: rest =>
      let rc := readClock st
      let st1 := { rc.2 with
        archive := insertArchive rc.2.archive (mkArchiveEntry rc.1 c) }
      if c.id ∈ st1.files then (st1, Except.error moveError)
      else archiveLoop (forgetCtx st1 c.id) (n + 1) rest

/-- `_archive_old` (ctx.mgr.py): select rows older than the override (or
`archive_days`) or with decay or importance below 0.2, then run the
write/move/forget loop over them. -/
def archiveOld (s : Store) (daysOverride : Option Nat) :
    Store × Except String Nat :=
  let days : Nat := daysOverride.getD archiveDays
  let r := readClock s
  let cutoff := r.1 - (days : Int) * 24
  let selected := r.2.contexts.filter (archiveSelect cutoff)
  archiveLoop r.2 0 selected

/-- `_forget_old` (ctx.mgr.py): delete every archive file whose mtime is
older than the override (or `forget_days`) and whose
`retrieval_count < 2`. -/
def forgetOld (s : Store) (daysOverride : Option Nat) : Store × Nat :=
  let days : Nat := daysOverride.getD forgetDays
  let r := readClock s
  let cutoff := r.1 - (days : Int) * 24
  let doomed := fun (e : ArchiveEntry) =>
    decide (e.mtime < cutoff) && decide (e.retrievalCount < 2)
  ({ r.2 with archive := r.2.archive.filter (fun e => !(doomed e)) },
   r.2.archive.countP doomed)

/-- Whether the char list p begins the char list t. -/
def leadsChars : List Char → List Char → Bool
  | [], _ => true
  | _ :: _, [] => false
  | a :: as, b :: bs => a == b && leadsChars as bs

/-- Whether pat occurs inside text as a contiguous run. -/
def containsSub (text pat : List Char) : Bool :=
  match text with
  | [] => pat.isEmpty
  | _ :: rest => leadsChars pat text || containsSub rest pat

/-- Rendering of the details payload inside `str(data)`. -/
def detailsText : Details → String
  | Details.dnone => ""
  | Details.dstr s => s
  | Details.consolidated items _ _ => String.intercalate " " items

/-- The serialized form `str(data)` of an archive file that
`_retrieve_from_archive` searches, reduced to the searchable text
fields. -/
def entryText (e : ArchiveEntry) : String :=
  e.what ++ " " ++ detailsText e.details ++ " " ++ e.ctype

/-- ASCII lowering of one character, as `str.lower()` acts on the ASCII
range. -/
def lowerChar (c : Char) : Char :=
  if 65 ≤ c.toNat ∧ c.toNat ≤ 90 then Char.ofNat (c.toNat + 32) else c

/-- The match test of `_retrieve_from_archive`:
`search_term in str(data).lower()` (the caller already lowercased the
term). -/
def matchesTerm (term : String) (e : ArchiveEntry) : Bool :=
  containsSub ((entryText e).toList.map lowerChar) term.toList

/-- One archive file visited by `_retrieve_from_archive`: on a match,
bump `retrieval_count`, set `last_retrieved`, rewrite the file (new
mtime), and `store.save` a fresh active context from the original
type, what and details; the restored `what` (truncated to 50) joins the
report list. -/
def retrieveStep (term : String)
    (acc : List ArchiveEntry × Store × List String) (e : ArchiveEntry) :
    List ArchiveEntry × Store × List String :=
  if matchesTerm term e then
    let r := readClock acc.2.1
    let e2 := { e with
      retrievalCount := e.retrievalCount + 1
      lastRetrieved := some r.1
      mtime := r.1 }
    let st2 := (save r.2 e.ctype e.what e.details).1
    (acc.1 ++ [e2], st2, acc.2.2 ++ [e.what.take 50])
  else (acc.1 ++ [e], acc.2.1, acc.2.2)

/-- `_retrieve_from_archive` (ctx.mgr.py): empty search terms are
rejected; otherwise every archive file is visited in order by
`retrieveStep`. -/
def retrieveFromArchive (s : Store) (term : String) : Store × List String :=
  if term = "" then (s, [])
  else
    let out := s.archive.foldl (retrieveStep term) ([], s, [])
    ({ out.2.1 with archive := out.1 }, out.2.2)

/-- The demotion `_consolidate_memory` applies through `mark_important`. -/
def demote (c : Context) : Context :=
  { c with metadata := { c.metadata with importance := some (mkRat 1 10) } }

/-! Concrete fixtures for witnesses and counterexamples. -/

/-- A non-exempt context created at hour 0 with the default metadata of
`remember`. -/
def cNote10d : Context :=
  { id := ⟨"note", 0⟩
    content := ⟨"ten day old note", Details.dnone, "note", 0⟩
    ctxType := "note"
    created_at := 0
    updated_at := 0
    metadata := { importance := some 1 }
    dimension := "note"
    activation_score := 1 }

/-- A store observed 240 hours (10 days) after `cNote10d` was created. -/
def sNote10d : Store := ⟨240, false, [cNote10d], [], [⟨"note", 0⟩]⟩

/-- A decay-exempt context whose stored decay is 0.3. -/
def cExempt : Context :=
  { id := ⟨"rule", 0⟩
    content := ⟨"durable rule", Details.dnone, "rule", 0⟩
    ctxType := "rule"
    created_at := 0
    updated_at := 0
    metadata := { importance := some 1
                  decay := some (mkRat 3 10)
                  decay_exempt := some true }
    dimension := "rule"
    activation_score := 1 }

/-- A store holding `cExempt`, 100 days after its creation. -/
def sExempt : Store := ⟨2400, false, [cExempt], [], [⟨"rule", 0⟩]⟩

/-- The image of `cExempt` under one decay pass of `sExempt`. -/
def cExemptAfter : Context :=
  { cExempt with
    metadata :=
      { cExempt.metadata with
        decay := some 1
        decay_updated := some 2400 } }

/-- An archive entry archived at hour 0 and last rewritten (retrieved) at
hour 7190, retrieved once. -/
def eStale : ArchiveEntry :=
  { id := ⟨"note", 0⟩
    what := "archived note"
    details := Details.dnone
    ctype := "note"
    whenT := 0
    archived_at := 0
    final_decay := mkRat 1 10
    retrievalCount := 1
    lastRetrieved := some 7190
    mtime := 7190 }

/-- A store observed at hour 7200 (300 days) holding only `eStale`. -/
def sStale : Store := ⟨7200, false, [], [eStale], []⟩

/-- Builder for the cold `"note"` contexts of the consolidation
scenario: context number k, created at hour k. -/
def mkNote (k : Int) : Context :=
  { id := ⟨"note", k⟩
    content := ⟨"a note", Details.dnone, "note", k⟩
    ctxType := "note"
    created_at := k
    updated_at := k
    metadata := { importance := some 1 }
    dimension := "note"
    activation_score := 1 }

/-- Twelve cold `"note"` contexts (ages far beyond `cold_days`) in
creation order, observed at hour 2000. -/
def sTwelve : Store :=
  ⟨2000, false,
   [mkNote 0, mkNote 1, mkNote 2, mkNote 3, mkNote 4, mkNote 5, mkNote 6,
    mkNote 7, mkNote 8, mkNote 9, mkNote 10, mkNote 11], [], []⟩

/-- The store of the first of two same-clock creations. -/
def sClock5 : Store := ⟨5, false, [], [], []⟩

/-- First concurrent `Save`: observes clock 5. -/
def firstSave : Store × CtxId := remember sClock5 "first" Details.dnone "task"

/-- Second concurrent `Save`: observes the same wall clock 5 (the table
already holds the first row). -/
def secondSave : Store × CtxId :=
  remember { firstSave.1 with clock := 5 } "second" Details.dnone "task"

end CtxSpec

namespace CtxSpec

/-! Helper lemmas. -/

theorem mem_insertOrReplace_self (l : List Context) (c : Context) :
    c ∈ insertOrReplace l c := by
  unfold insertOrReplace
  by_cases h : l.any (fun x => decide (x.id = c.id)) = true
  · rw [if_pos h]
    rcases List.any_eq_true.mp h with ⟨x, hx, hxc⟩
    have hfx : (fun x => if x.id = c.id then c else x) x = c := by
      simp only [decide_eq_true_eq] at hxc
      simp [hxc]
    exact List.mem_map.mpr ⟨x, hx, hfx⟩
  · rw [if_neg h]
    exact List.mem_append_right _ (List.mem_singleton_self c)

theorem mem_insertOrReplace_of_ne (l : List Context) (c r : Context)
    (hc : c ∈ l) (h : c.id ≠ r.id) : c ∈ insertOrReplace l r := by
  unfold insertOrReplace
  by_cases hb : l.any (fun x => decide (x.id = r.id)) = true
  · rw [if_pos hb]
    have hfc : (fun x => if x.id = r.id then r else x) c = c := by simp [h]
    exact List.mem_map.mpr ⟨c, hc, hfc⟩
  · rw [if_neg hb]
    exact List.mem_append_left _ hc

theorem insertOrReplace_of_fresh (l : List Context) (c : Context)
    (h : ∀ x ∈ l, ¬ x.id = c.id) : insertOrReplace l c = l ++ [c] := by
  unfold insertOrReplace
  have hanyf : (l.any fun x => decide (x.id = c.id)) = false := by
    rw [List.any_eq_false]
    intro x hx
    simp only [decide_eq_true_eq]
    exact h x hx
  rw [hanyf]
  simp

theorem remember_snd (s : Store) (w : String) (d : Details) (t : String) :
    (remember s w d t).2 = ⟨t, s.clock⟩ := by
  unfold remember readClock
  split <;> rfl

theorem remember_contexts (s : Store) (w : String) (d : Details) (t : String)
    (hRO : s.readOnly = false) :
    (remember s w d t).1.contexts
      = insertOrReplace s.contexts
          { id := ⟨t, s.clock⟩
            content := ⟨w, d, t, s.clock⟩
            ctxType := t
            created_at := s.clock
            updated_at := s.clock
            metadata := { importance := some 1 }
            dimension := t
            activation_score := 1 } := by
  simp [remember, readClock, hRO]

theorem decayCtx_exempt_flag (now : Int) (c : Context) :
    (decayCtx now c).metadata.decay_exempt = c.metadata.decay_exempt := by
  unfold decayCtx
  split <;> rfl

theorem decayCtx_exempt_decay (now : Int) (c : Context)
    (hex : c.metadata.decay_exempt.getD false = true) :
    (decayCtx now c).metadata.decay.getD 1 = 1 := by
  have ht : decayTarget now c = 1 := by simp [decayTarget, hex]
  unfold decayCtx
  rw [ht]
  by_cases h : (1 : ℚ) ≠ c.metadata.decay.getD 1
  · rw [if_pos h]
    simp
  · rw [if_neg h]
    push_neg at h
    exact h.symm

theorem decayMemory_contexts (s : Store) (hRO : s.readOnly = false) :
    (decayMemory s).1.contexts = s.contexts.map (decayCtx s.clock) := by
  simp [decayMemory, readClock, hRO]

theorem decayMemory_readOnly (s : Store) :
    (decayMemory s).1.readOnly = s.readOnly := by
  by_cases h : s.readOnly <;> simp [decayMemory, readClock, h]

theorem exempt_decay_after_pass (s : Store) (hRO : s.readOnly = false) :
    ∀ c ∈ (decayMemory s).1.contexts,
      c.metadata.decay_exempt.getD false = true →
      c.metadata.decay.getD 1 = 1 := by
  intro c hc hex
  rw [decayMemory_contexts s hRO] at hc
  rcases List.mem_map.mp hc with ⟨c0, _, rfl⟩
  have hex0 : c0.metadata.decay_exempt.getD false = true := by
    rwa [decayCtx_exempt_flag] at hex
  exact decayCtx_exempt_decay _ _ hex0

theorem decayIter_succ (n : Nat) (s : Store) :
    decayIter (n + 1) s = decayIter n (decayMemory s).1 := rfl

/-! Lemmas about `_consolidate_memory`. -/

theorem markImportant_found (s : Store) (i : CtxId) (v : ℚ)
    (hRO : s.readOnly = false)
    (hany : s.contexts.any (fun c => decide (c.id = i)) = true) :
    markImportant s i v
      = { s with
          contexts := s.contexts.map (fun c =>
            if c.id = i then
              { c with metadata := { c.metadata with importance := some v } }
            else c) } := by
  unfold markImportant
  rw [hany, if_pos rfl, hRO]
  rfl

theorem demote_id (c : Context) : (demote c).id = c.id := rfl

theorem demote_demote (c : Context) : demote (demote c) = demote c := rfl

theorem demoteIds_contexts (ids : List CtxId) (s : Store)
    (hRO : s.readOnly = false)
    (hfound : ∀ i ∈ ids, ∃ c ∈ s.contexts, c.id = i) :
    (demoteIds s ids).contexts
      = s.contexts.map (fun c => if c.id ∈ ids then demote c else c)
    ∧ (demoteIds s ids).readOnly = false
    ∧ (demoteIds s ids).archive = s.archive
    ∧ (demoteIds s ids).clock = s.clock := by
  induction ids generalizing s with
  | nil =>
      refine ⟨?_, hRO, rfl, rfl⟩
      simp [demoteIds]
  | cons i ids ih =>
      have hany : s.contexts.any (fun c => decide (c.id = i)) = true := by
        rcases hfound i (List.mem_cons_self i ids) with ⟨c, hc, hci⟩
        exact List.any_eq_true.mpr ⟨c, hc, by simp [hci]⟩
      have hm := markImportant_found s i (mkRat 1 10) hRO hany
      have hctx1 : (markImportant s i (mkRat 1 10)).contexts
          = s.contexts.map (fun c => if c.id = i then demote c else c) := by
        rw [hm]
        rfl
      have hro1 : (markImportant s i (mkRat 1 10)).readOnly = false := by
        rw [hm]
        exact hRO
      have harc1 : (markImportant s i (mkRat 1 10)).archive = s.archive := by
        rw [hm]
      have hclk1 : (markImportant s i (mkRat 1 10)).clock = s.clock := by
        rw [hm]
      have hfound1 : ∀ j ∈ ids,
          ∃ c ∈ (markImportant s i (mkRat 1 10)).contexts, c.id = j := by
        intro j hj
        rcases hfound j (List.mem_cons_of_mem i hj) with ⟨c, hc, hcj⟩
        refine ⟨if c.id = i then demote c else c, ?_, ?_⟩
        · rw [hctx1]
          exact List.mem_map_of_mem _ hc
        · by_cases h : c.id = i
          · rw [if_pos h, demote_id, hcj]
          · rw [if_neg h, hcj]
      rcases ih (markImportant s i (mkRat 1 10)) hro1 hfound1 with ⟨h1, h2, h3, h4⟩
      have hstep : demoteIds s (i :: ids)
          = demoteIds (markImportant s i (mkRat 1 10)) ids := rfl
      refine ⟨?_, by rw [hstep]; exact h2, by rw [hstep, h3, harc1],
        by rw [hstep, h4, hclk1]⟩
      rw [hstep, h1, hctx1, List.map_map]
      apply List.map_congr_left
      intro c _
      simp only [Function.comp_apply]
      by_cases hci : c.id = i
      · rw [if_pos hci]
        by_cases hmem : c.id ∈ ids
        · rw [if_pos (by rw [demote_id]; exact hmem), demote_demote,
            if_pos (by simp [hci])]
        · rw [if_neg (by rw [demote_id]; exact hmem), if_pos (by simp [hci])]
      · rw [if_neg hci]
        by_cases hmem : c.id ∈ ids
        · rw [if_pos hmem, if_pos (List.mem_cons_of_mem i hmem)]
        · rw [if_neg hmem, if_neg (by simp [hci, hmem])]

theorem dedup_replicate_succ (n : Nat) (t : String) :
    (List.replicate (n + 1) t).dedup = [t] := by
  induction n with
  | zero => simp
  | succ n ih =>
      rw [List.replicate_succ, List.dedup_cons_of_mem (by simp), ih]

theorem distinctTypes_const (l : List Context) (t : String)
    (hne : l ≠ []) (hall : ∀ c ∈ l, c.ctxType = t) :
    distinctTypes l = [t] := by
  have hmap : l.map (fun c => c.ctxType) = List.replicate l.length t :=
    List.eq_replicate_iff.mpr ⟨by simp, by
      intro b hb
      rcases List.mem_map.mp hb with ⟨c, hc, rfl⟩
      exact hall c hc⟩
  rcases List.exists_cons_of_ne_nil hne with ⟨a, as, rfl⟩
  unfold distinctTypes
  rw [hmap, List.length_cons, dedup_replicate_succ]

theorem remember_aux (s : Store) (w : String) (d : Details) (t : String)
    (hRO : s.readOnly = false) :
    (remember s w d t).1.readOnly = false
    ∧ (remember s w d t).1.archive = s.archive
    ∧ (remember s w d t).1.clock = s.clock + 1 := by
  refine ⟨?_, ?_, ?_⟩ <;> simp [remember, readClock, hRO]

theorem save_aux (s : Store) (t w : String) (d : Details)
    (hRO : s.readOnly = false) :
    (save s t w d).1.readOnly = false
    ∧ (save s t w d).1.archive = s.archive
    ∧ (save s t w d).1.clock = s.clock + 1 :=
  remember_aux s w d t hRO

theorem consolidation_map_split (L : List Context) (newc : Context)
    (ids : List CtxId) (hids_eq : ids = (L.take 7).map (fun c => c.id))
    (hids : (L.map (fun c => c.id)).Nodup)
    (hnew : newc.id ∉ ids) :
    (L ++ [newc]).map (fun c => if c.id ∈ ids then demote c else c)
      = (L.take 7).map demote ++ L.drop 7 ++ [newc] := by
  have hdisj : List.Disjoint ((L.take 7).map (fun c => c.id))
      ((L.drop 7).map (fun c => c.id)) := by
    have hnd : ((L.take 7).map (fun c => c.id)
        ++ (L.drop 7).map (fun c => c.id)).Nodup := by
      rw [← List.map_append, List.take_append_drop]
      exact hids
    exact List.disjoint_of_nodup_append hnd
  rw [List.map_append]
  congr 1
  · conv_lhs => rw [← List.take_append_drop 7 L]
    rw [List.map_append]
    congr 1
    · apply List.map_congr_left
      intro c hc
      rw [if_pos (by rw [hids_eq]; exact List.mem_map_of_mem _ hc)]
    · have hno : ∀ c ∈ L.drop 7, c.id ∉ ids := by
        intro c hc hmem
        rw [hids_eq] at hmem
        exact hdisj hmem (List.mem_map_of_mem _ hc)
      calc (L.drop 7).map (fun c => if c.id ∈ ids then demote c else c)
          = (L.drop 7).map (fun c => c) :=
            List.map_congr_left (fun c hc => if_neg (hno c hc))
        _ = L.drop 7 := List.map_id' _
  · simp only [List.map_cons, List.map_nil]
    rw [if_neg hnew]

theorem consolidateType_full (s : Store) (t : String) (cutoff : Int) (n : Nat)
    (hRO : s.readOnly = false)
    (htype : ∀ c ∈ s.contexts, c.ctxType = t)
    (hcold : ∀ c ∈ s.contexts, c.created_at < cutoff)
    (hsort : List.Sorted (fun a b : Context => a.created_at ≤ b.created_at)
      s.contexts)
    (hlen : s.contexts.length = 12)
    (hids : (s.contexts.map (fun c => c.id)).Nodup)
    (hfresh : ∀ c ∈ s.contexts, c.id.ctype ≠ t ++ "_consolidated") :
    (consolidateType cutoff (s, n) t).1.contexts
      = (s.contexts.take 7).map demote ++ s.contexts.drop 7
        ++ [{ id := ⟨t ++ "_consolidated", s.clock + 1⟩
              content := ⟨consolidatedWhat t,
                Details.consolidated
                  ((s.contexts.take 7).map (fun c => c.content.what)) 7 s.clock,
                t ++ "_consolidated", s.clock + 1⟩
              ctxType := t ++ "_consolidated"
              created_at := s.clock + 1
              updated_at := s.clock + 1
              metadata := { importance := some 1 }
              dimension := t ++ "_consolidated"
              activation_score := 1 }]
    ∧ (consolidateType cutoff (s, n) t).1.archive = s.archive
    ∧ (consolidateType cutoff (s, n) t).1.clock = s.clock + 2
    ∧ (consolidateType cutoff (s, n) t).1.readOnly = false
    ∧ (consolidateType cutoff (s, n) t).2 = n + 7 := by
  have hfilter : s.contexts.filter (fun c =>
      decide (c.ctxType = t) && decide (c.created_at < cutoff)) = s.contexts :=
    List.filter_eq_self.mpr (fun c hc => by simp [htype c hc, hcold c hc])
  have hsorted : List.insertionSort
      (fun a b : Context => a.created_at ≤ b.created_at) s.contexts
      = s.contexts := List.Sorted.insertionSort_eq hsort
  have hlen7 : (s.contexts.take 7).length = 7 := by
    simp [List.length_take, hlen]
  have hlenmap : ((s.contexts.take 7).map (fun c => c.content.what)).length = 7 := by
    rw [List.length_map, hlen7]
  have htk20 : ((s.contexts.take 7).map (fun c => c.content.what)).take 20
      = (s.contexts.take 7).map (fun c => c.content.what) :=
    List.take_of_length_le (by rw [hlenmap]; omega)
  have hie : ((s.contexts.take 7).map (fun c => c.content.what)).isEmpty
      = false := by
    cases hmm : (s.contexts.take 7).map (fun c => c.content.what) with
    | nil => rw [hmm] at hlenmap; simp at hlenmap
    | cons a as => rfl
  have hcons : consolidateType cutoff (s, n) t
      = (demoteIds
          ((save { s with clock := s.clock + 1 } (t ++ "_consolidated")
            (consolidatedWhat t)
            (Details.consolidated
              ((s.contexts.take 7).map (fun c => c.content.what)) 7 s.clock)).1)
          ((s.contexts.take 7).map (fun c => c.id)),
         n + ((s.contexts.take 7).map (fun c => c.id)).length) := by
    rw [consolidateType]
    simp only [hfilter, hsorted, hlen]
    rw [if_pos (by omega)]
    simp only [show (12 : Nat) - 5 = 7 from rfl, hie, Bool.false_eq_true,
      if_false, htk20, hlenmap]
    rfl
  have hnewid : ∀ x ∈ s.contexts,
      ¬(x.id = (⟨t ++ "_consolidated", s.clock + 1⟩ : CtxId)) := by
    intro x hx h
    exact hfresh x hx (by rw [h])
  have happ : insertOrReplace s.contexts
      { id := ⟨t ++ "_consolidated", s.clock + 1⟩
        content := ⟨consolidatedWhat t,
          Details.consolidated
            ((s.contexts.take 7).map (fun c => c.content.what)) 7 s.clock,
          t ++ "_consolidated", s.clock + 1⟩
        ctxType := t ++ "_consolidated"
        created_at := s.clock + 1
        updated_at := s.clock + 1
        metadata := { importance := some 1 }
        dimension := t ++ "_consolidated"
        activation_score := 1 }
      = s.contexts ++
        [{ id := ⟨t ++ "_consolidated", s.clock + 1⟩
           content := ⟨consolidatedWhat t,
             Details.consolidated
               ((s.contexts.take 7).map (fun c => c.content.what)) 7 s.clock,
             t ++ "_consolidated", s.clock + 1⟩
           ctxType := t ++ "_consolidated"
           created_at := s.clock + 1
           updated_at := s.clock + 1
           metadata := { importance := some 1 }
           dimension := t ++ "_consolidated"
           activation_score := 1 }] :=
    insertOrReplace_of_fresh _ _ hnewid
  have hctxS2 : (save { s with clock := s.clock + 1 } (t ++ "_consolidated")
      (consolidatedWhat t)
      (Details.consolidated
        ((s.contexts.take 7).map (fun c => c.content.what)) 7 s.clock)).1.contexts
      = s.contexts ++
        [{ id := ⟨t ++ "_consolidated", s.clock + 1⟩
           content := ⟨consolidatedWhat t,
             Details.consolidated
               ((s.contexts.take 7).map (fun c => c.content.what)) 7 s.clock,
             t ++ "_consolidated", s.clock + 1⟩
           ctxType := t ++ "_consolidated"
           created_at := s.clock + 1
           updated_at := s.clock + 1
           metadata := { importance := some 1 }
           dimension := t ++ "_consolidated"
           activation_score := 1 }] := by
    rw [show save { s with clock := s.clock + 1 } (t ++ "_consolidated")
        (consolidatedWhat t)
        (Details.consolidated
          ((s.contexts.take 7).map (fun c => c.content.what)) 7 s.clock)
      = remember { s with clock := s.clock + 1 } (consolidatedWhat t)
          (Details.consolidated
            ((s.contexts.take 7).map (fun c => c.content.what)) 7 s.clock)
          (t ++ "_consolidated") from rfl]
    rw [remember_contexts { s with clock := s.clock + 1 } (consolidatedWhat t)
      (Details.consolidated
        ((s.contexts.take 7).map (fun c => c.content.what)) 7 s.clock)
      (t ++ "_consolidated") hRO]
    exact happ
  rcases save_aux { s with clock := s.clock + 1 } (t ++ "_consolidated")
    (consolidatedWhat t)
    (Details.consolidated
      ((s.contexts.take 7).map (fun c => c.content.what)) 7 s.clock)
    hRO with ⟨hro2, harc2, hclk2⟩
  have hfound : ∀ i ∈ (s.contexts.take 7).map (fun c => c.id),
      ∃ c ∈ (save { s with clock := s.clock + 1 } (t ++ "_consolidated")
        (consolidatedWhat t)
        (Details.consolidated
          ((s.contexts.take 7).map (fun c => c.content.what)) 7 s.clock)).1.contexts,
        c.id = i := by
    intro i hi
    rcases List.mem_map.mp hi with ⟨c, hc, rfl⟩
    exact ⟨c, by
      rw [hctxS2]
      exact List.mem_append_left _ (List.take_subset 7 s.contexts hc), rfl⟩
  rcases demoteIds_contexts ((s.contexts.take 7).map (fun c => c.id))
    ((save { s with clock := s.clock + 1 } (t ++ "_consolidated")
      (consolidatedWhat t)
      (Details.consolidated
        ((s.contexts.take 7).map (fun c => c.content.what)) 7 s.clock)).1)
    hro2 hfound with ⟨hdc, hdro, hdar, hdck⟩
  have hnotin : (⟨t ++ "_consolidated", s.clock + 1⟩ : CtxId)
      ∉ (s.contexts.take 7).map (fun c => c.id) := by
    intro hmem
    rcases List.mem_map.mp hmem with ⟨c, hc, hceq⟩
    exact hfresh c (List.take_subset 7 s.contexts hc) (by rw [hceq])
  have hmapform := consolidation_map_split s.contexts
    { id := ⟨t ++ "_consolidated", s.clock + 1⟩
      content := ⟨consolidatedWhat t,
        Details.consolidated
          ((s.contexts.take 7).map (fun c => c.content.what)) 7 s.clock,
        t ++ "_consolidated", s.clock + 1⟩
      ctxType := t ++ "_consolidated"
      created_at := s.clock + 1
      updated_at := s.clock + 1
      metadata := { importance := some 1 }
      dimension := t ++ "_consolidated"
      activation_score := 1 } ((s.contexts.take 7).map (fun c => c.id))
    rfl hids hnotin
  refine ⟨?_, ?_, ?_, ?_, ?_⟩
  · rw [hcons]
    show (demoteIds _ _).contexts = _
    rw [hdc, hctxS2, hmapform]
  · rw [hcons]
    show (demoteIds _ _).archive = _
    rw [hdar, harc2]
  · rw [hcons]
    show (demoteIds _ _).clock = _
    rw [hdck, hclk2]
    show s.clock + 1 + 1 = s.clock + 2
    omega
  · rw [hcons]
    show (demoteIds _ _).readOnly = _
    exact hdro
  · rw [hcons]
    show n + ((s.contexts.take 7).map (fun c => c.id)).length = n + 7
    rw [List.length_map, hlen7]

theorem consolidateType_small (s : Store) (t : String) (cutoff : Int) (n : Nat)
    (hlen : s.contexts.length ≤ 10) :
    consolidateType cutoff (s, n) t = (s, n) := by
  have hlensort : (List.insertionSort
      (fun a b : Context => a.created_at ≤ b.created_at)
      (s.contexts.filter (fun c =>
        decide (c.ctxType = t) && decide (c.created_at < cutoff)))).length
      ≤ 10 := by
    rw [List.length_insertionSort]
    exact le_trans (List.length_filter_le _ _) hlen
  simp only [consolidateType]
  rw [if_neg (by omega)]

/-! Lemmas about the `_retrieve_from_archive` fold. -/

theorem retrieveStep_fst (term : String)
    (acc : List ArchiveEntry × Store × List String) (e : ArchiveEntry) :
    ∃ x, (retrieveStep term acc e).1 = acc.1 ++ [x]
      ∧ x.id = e.id ∧ x.what = e.what ∧ x.details = e.details
      ∧ x.ctype = e.ctype
      ∧ x.retrievalCount
          = e.retrievalCount + (if matchesTerm term e then 1 else 0) := by
  by_cases hm : matchesTerm term e = true
  · refine ⟨{ e with
        retrievalCount := e.retrievalCount + 1
        lastRetrieved := some (readClock acc.2.1).1
        mtime := (readClock acc.2.1).1 }, ?_, rfl, rfl, rfl, rfl, ?_⟩
    · simp [retrieveStep, hm]
    · simp [hm]
  · refine ⟨e, ?_, rfl, rfl, rfl, rfl, ?_⟩
    · simp [retrieveStep, hm]
    · simp [hm]

theorem retrieve_fold_prefix (term : String) (l : List ArchiveEntry)
    (done : List ArchiveEntry) (st : Store) (names : List String) :
    ∃ suf, (l.foldl (retrieveStep term) (done, st, names)).1 = done ++ suf := by
  induction l generalizing done st names with
  | nil => exact ⟨[], by simp⟩
  | cons e tl ih =>
      rcases retrieveStep_fst term (done, st, names) e with ⟨x, hx, -, -, -, -, -⟩
      have hstep : tl.foldl (retrieveStep term) (retrieveStep term (done, st, names) e)
          = tl.foldl (retrieveStep term)
              (done ++ [x], (retrieveStep term (done, st, names) e).2.1,
               (retrieveStep term (done, st, names) e).2.2) := by
        rw [show retrieveStep term (done, st, names) e
            = ((retrieveStep term (done, st, names) e).1,
               (retrieveStep term (done, st, names) e).2.1,
               (retrieveStep term (done, st, names) e).2.2) from rfl, hx]
      rcases ih (done ++ [x]) (retrieveStep term (done, st, names) e).2.1
        (retrieveStep term (done, st, names) e).2.2 with ⟨suf, hsuf⟩
      refine ⟨x :: suf, ?_⟩
      rw [List.foldl_cons, hstep, hsuf, List.append_assoc]
      rfl

theorem retrieve_fold_length (term : String) (l : List ArchiveEntry)
    (done : List ArchiveEntry) (st : Store) (names : List String) :
    (l.foldl (retrieveStep term) (done, st, names)).1.length
      = done.length + l.length := by
  induction l generalizing done st names with
  | nil => simp
  | cons e tl ih =>
      rcases retrieveStep_fst term (done, st, names) e with ⟨x, hx, -, -, -, -, -⟩
      rw [List.foldl_cons,
        show retrieveStep term (done, st, names) e
            = ((retrieveStep term (done, st, names) e).1,
               (retrieveStep term (done, st, names) e).2.1,
               (retrieveStep term (done, st, names) e).2.2) from rfl, hx,
        ih]
      simp
      omega

theorem retrieve_fold_entry (term : String) (l : List ArchiveEntry)
    (done : List ArchiveEntry) (st : Store) (names : List String)
    (i : Nat) (e : ArchiveEntry) (he : l[i]? = some e) :
    ∃ e2, (l.foldl (retrieveStep term) (done, st, names)).1[done.length + i]?
        = some e2
      ∧ e2.id = e.id ∧ e2.what = e.what ∧ e2.details = e.details
      ∧ e2.ctype = e.ctype
      ∧ e2.retrievalCount
          = e.retrievalCount + (if matchesTerm term e then 1 else 0) := by
  induction l generalizing done st names i with
  | nil => simp at he
  | cons e0 tl ih =>
      rcases retrieveStep_fst term (done, st, names) e0 with
        ⟨x, hx, hid, hwhat, hdet, hct, hcnt⟩
      have hstep : tl.foldl (retrieveStep term) (retrieveStep term (done, st, names) e0)
          = tl.foldl (retrieveStep term)
              (done ++ [x], (retrieveStep term (done, st, names) e0).2.1,
               (retrieveStep term (done, st, names) e0).2.2) := by
        rw [show retrieveStep term (done, st, names) e0
            = ((retrieveStep term (done, st, names) e0).1,
               (retrieveStep term (done, st, names) e0).2.1,
               (retrieveStep term (done, st, names) e0).2.2) from rfl, hx]
      cases i with
      | zero =>
          have he0 : e0 = e := by simpa using he
          subst he0
          rcases retrieve_fold_prefix term tl (done ++ [x])
            (retrieveStep term (done, st, names) e0).2.1
            (retrieveStep term (done, st, names) e0).2.2 with ⟨suf, hsuf⟩
          refine ⟨x, ?_, hid, hwhat, hdet, hct, hcnt⟩
          rw [List.foldl_cons, hstep, hsuf, List.append_assoc, Nat.add_zero,
            List.getElem?_append_right (le_refl done.length)]
          simp
      | succ i =>
          have htl : tl[i]? = some e := by simpa using he
          rcases ih (done ++ [x]) (retrieveStep term (done, st, names) e0).2.1
            (retrieveStep term (done, st, names) e0).2.2 i htl with
            ⟨e2, hidx, h1, h2, h3, h4, h5⟩
          refine ⟨e2, ?_, h1, h2, h3, h4, h5⟩
          rw [List.foldl_cons, hstep]
          rw [List.length_append, List.length_singleton] at hidx
          rw [show done.length + (i + 1) = done.length + 1 + i from by omega]
          exact hidx

theorem retrieveStep_readOnly (term : String)
    (acc : List ArchiveEntry × Store × List String) (e : ArchiveEntry) :
    (retrieveStep term acc e).2.1.readOnly = acc.2.1.readOnly := by
  by_cases hm : matchesTerm term e = true <;>
    by_cases hro : acc.2.1.readOnly = true <;>
      simp [retrieveStep, hm, save, remember, readClock, hro]

theorem retrieveStep_clock (term : String)
    (acc : List ArchiveEntry × Store × List String) (e : ArchiveEntry) :
    acc.2.1.clock ≤ (retrieveStep term acc e).2.1.clock := by
  by_cases hm : matchesTerm term e = true
  · by_cases hro : acc.2.1.readOnly = true <;>
      simp [retrieveStep, hm, save, remember, readClock, hro] <;> omega
  · simp [retrieveStep, hm]

theorem retrieveStep_keeps_ctx (term : String)
    (acc : List ArchiveEntry × Store × List String) (e : ArchiveEntry)
    (c : Context) (hc : c ∈ acc.2.1.contexts)
    (hts : c.id.ts < acc.2.1.clock) :
    c ∈ (retrieveStep term acc e).2.1.contexts
    ∧ c.id.ts < (retrieveStep term acc e).2.1.clock := by
  by_cases hm : matchesTerm term e = true
  · by_cases hro : acc.2.1.readOnly = true
    · refine ⟨?_, ?_⟩
      · simpa [retrieveStep, hm, save, remember, readClock, hro] using hc
      · have h2 : (retrieveStep term acc e).2.1.clock = acc.2.1.clock + 2 := by
          simp [retrieveStep, hm, save, remember, readClock, hro]
          omega
        rw [h2]
        omega
    · have hro2 : acc.2.1.readOnly = false := by simpa using hro
      have hne : c.id ≠ ⟨e.ctype, acc.2.1.clock + 1⟩ := by
        intro h
        have hlt : (acc.2.1.clock + 1 : Int) < acc.2.1.clock := by
          rw [h] at hts
          exact hts
        omega
      refine ⟨?_, ?_⟩
      · have hst2 : (retrieveStep term acc e).2.1
            = (remember { acc.2.1 with clock := acc.2.1.clock + 1 }
                e.what e.details e.ctype).1 := by
          simp [retrieveStep, hm, save, readClock]
        rw [hst2, remember_contexts _ _ _ _ (by simpa using hro)]
        exact mem_insertOrReplace_of_ne _ _ _ hc hne
      · have h2 : (retrieveStep term acc e).2.1.clock = acc.2.1.clock + 2 := by
          simp [retrieveStep, hm, save, remember, readClock, hro2]
          omega
        rw [h2]
        omega
  · refine ⟨?_, ?_⟩
    · simpa [retrieveStep, hm] using hc
    · simpa [retrieveStep, hm] using hts

theorem retrieve_fold_keeps_ctx (term : String) (l : List ArchiveEntry)
    (done : List ArchiveEntry) (st : Store) (names : List String)
    (c : Context) (hc : c ∈ st.contexts) (hts : c.id.ts < st.clock) :
    c ∈ (l.foldl (retrieveStep term) (done, st, names)).2.1.contexts
    ∧ c.id.ts < (l.foldl (retrieveStep term) (done, st, names)).2.1.clock := by
  induction l generalizing done st names with
  | nil => exact ⟨hc, hts⟩
  | cons e tl ih =>
      rcases retrieveStep_keeps_ctx term (done, st, names) e c hc hts with ⟨h1, h2⟩
      rw [List.foldl_cons,
        show retrieveStep term (done, st, names) e
            = ((retrieveStep term (done, st, names) e).1,
               (retrieveStep term (done, st, names) e).2.1,
               (retrieveStep term (done, st, names) e).2.2) from rfl]
      exact ih _ _ _ h1 h2

theorem retrieve_fold_clock (term : String) (l : List ArchiveEntry)
    (done : List ArchiveEntry) (st : Store) (names : List String) :
    st.clock ≤ (l.foldl (retrieveStep term) (done, st, names)).2.1.clock := by
  induction l generalizing done st names with
  | nil => exact le_refl _
  | cons e tl ih =>
      have h1 := retrieveStep_clock term (done, st, names) e
      rw [List.foldl_cons,
        show retrieveStep term (done, st, names) e
            = ((retrieveStep term (done, st, names) e).1,
               (retrieveStep term (done, st, names) e).2.1,
               (retrieveStep term (done, st, names) e).2.2) from rfl]
      exact le_trans h1 (ih _ _ _)

theorem retrieveStep_readOnly_false (term : String)
    (acc : List ArchiveEntry × Store × List String) (e : ArchiveEntry)
    (h : acc.2.1.readOnly = false) :
    (retrieveStep term acc e).2.1.readOnly = false := by
  rw [retrieveStep_readOnly]
  exact h

theorem retrieve_fold_inserts (term : String) (l : List ArchiveEntry)
    (done : List ArchiveEntry) (st : Store) (names : List String)
    (i : Nat) (e : ArchiveEntry) (he : l[i]? = some e)
    (hm : matchesTerm term e = true) (hRO : st.readOnly = false) :
    ∃ c ∈ (l.foldl (retrieveStep term) (done, st, names)).2.1.contexts,
      c.content.what = e.what ∧ c.content.details = e.details
      ∧ c.content.ctype = e.ctype ∧ st.clock ≤ c.id.ts := by
  induction l generalizing done st names i with
  | nil => simp at he
  | cons e0 tl ih =>
      rw [List.foldl_cons,
        show retrieveStep term (done, st, names) e0
            = ((retrieveStep term (done, st, names) e0).1,
               (retrieveStep term (done, st, names) e0).2.1,
               (retrieveStep term (done, st, names) e0).2.2) from rfl]
      cases i with
      | zero =>
          have he0 : e0 = e := by simpa using he
          subst he0
          have hst2 : (retrieveStep term (done, st, names) e0).2.1
              = (save { st with clock := st.clock + 1 } e0.ctype e0.what
                  e0.details).1 := by
            simp [retrieveStep, hm, readClock]
          have hrow :
              ({ id := ⟨e0.ctype, st.clock + 1⟩
                 content := ⟨e0.what, e0.details, e0.ctype, st.clock + 1⟩
                 ctxType := e0.ctype
                 created_at := st.clock + 1
                 updated_at := st.clock + 1
                 metadata := { importance := some 1 }
                 dimension := e0.ctype
                 activation_score := 1 } : Context)
                ∈ (retrieveStep term (done, st, names) e0).2.1.contexts := by
            rw [hst2,
              show save { st with clock := st.clock + 1 } e0.ctype e0.what e0.details
                  = remember { st with clock := st.clock + 1 } e0.what e0.details
                      e0.ctype from rfl,
              remember_contexts _ _ _ _ (by simpa using hRO)]
            exact mem_insertOrReplace_self _ _
          have hclock2 : (retrieveStep term (done, st, names) e0).2.1.clock
              = st.clock + 2 := by
            simp [retrieveStep, hm, save, remember, readClock, hRO]
            omega
          rcases retrieve_fold_keeps_ctx term tl
            ((retrieveStep term (done, st, names) e0).1)
            ((retrieveStep term (done, st, names) e0).2.1)
            ((retrieveStep term (done, st, names) e0).2.2)
            _ hrow (by
              rw [hclock2]
              show st.clock + 1 < st.clock + 2
              omega) with ⟨hmem, -⟩
          exact ⟨_, hmem, rfl, rfl, rfl, by
            show st.clock ≤ st.clock + 1
            omega⟩
      | succ i =>
          have htl : tl[i]? = some e := by simpa using he
          have hro2 : (retrieveStep term (done, st, names) e0).2.1.readOnly
              = false := retrieveStep_readOnly_false term (done, st, names) e0 hRO
          rcases ih ((retrieveStep term (done, st, names) e0).1)
            ((retrieveStep term (done, st, names) e0).2.1)
            ((retrieveStep term (done, st, names) e0).2.2) i htl hro2 with
            ⟨c, hmem, h1, h2, h3, h4⟩
          exact ⟨c, hmem, h1, h2, h3,
            le_trans (retrieveStep_clock term (done, st, names) e0) h4⟩

/-! Claim theorems. -/

/-- C1 (code bug): with `hot_h = 24h`, `warm_d = 7d`, `cold_d = 30d`, a
non-exempt context created 10 days (240 hours) ago receives decay 0.7
after one `ApplyDecay` pass, not the 0.3 the claim (and the source
config comments, `_memory_status` and `_show_lifecycle`) give the
7-to-30-day band; `_decay_memory` only assigns the cold value beyond 30
days. -/
theorem c1_ten_day_decay_is_warm :
    (decayMemory sNote10d).1.contexts.map (fun c => c.metadata.decay.getD 1)
      = [decayWarm]
    ∧ decayWarm = mkRat 7 10 ∧ decayWarm ≠ decayCold := by decide

/-- C2 (confirmed): every context that is decay-exempt reads decay 1.0
after every nonempty finite sequence of `ApplyDecay` passes (on a
writable store); `_decay_memory` forces the value on every pass. -/
theorem c2_decay_exempt_invariant (s : Store) (hRO : s.readOnly = false)
    (n : Nat) (c : Context) (hc : c ∈ (decayIter (n + 1) s).contexts)
    (hex : c.metadata.decay_exempt.getD false = true) :
    c.metadata.decay.getD 1 = 1 := by
  induction n generalizing s with
  | zero => exact exempt_decay_after_pass s hRO c hc hex
  | succ n ih =>
      rw [decayIter_succ] at hc
      exact ih (decayMemory s).1
        (by rw [decayMemory_readOnly, hRO]) hc

/-- Witness for C2 at a concrete store: the exempt context whose stored
decay was 0.3 reads decay 1.0 after one pass. -/
theorem c2_decay_exempt_invariant_witness :
    cExemptAfter ∈ (decayIter 1 sExempt).contexts
    ∧ cExemptAfter.metadata.decay.getD 1 = 1 :=
  ⟨by decide,
   c2_decay_exempt_invariant sExempt rfl 0 cExemptAfter (by decide) (by decide)⟩

/-- C3 counterexample: the context created by `save` does not carry
`decay == 1.0` and `decay_exempt == false` in its metadata; `remember`
stores only `{"importance": 1.0}`. -/
theorem c3_counterexample :
    ¬ ∀ c ∈ (save (⟨0, false, [], [], []⟩ : Store) "task" "Build indexer"
              Details.dnone).1.contexts,
        c.metadata.decay = some 1 ∧ c.metadata.decay_exempt = some false := by
  decide

/-- C3 (amended): `save` stores metadata holding exactly
`importance = 1.0`; the `decay` and `decay_exempt` keys are absent and
every reader defaults them to 1.0 and false; the third argument is
stored as the content `details`, and `save` accepts no caller metadata,
so nothing can override these defaults. -/
theorem c3_save_default_metadata (s : Store) (w : String) (d : Details)
    (t : String) (hRO : s.readOnly = false) :
    ∃ c ∈ (save s t w d).1.contexts,
      c.id = ⟨t, s.clock⟩
      ∧ c.metadata = { importance := some 1 }
      ∧ c.metadata.decay = none
      ∧ c.metadata.decay_exempt = none
      ∧ c.metadata.decay.getD 1 = 1
      ∧ c.metadata.decay_exempt.getD false = false
      ∧ c.content = ⟨w, d, t, s.clock⟩
      ∧ c.ctxType = t ∧ c.created_at = s.clock ∧ c.updated_at = s.clock := by
  refine ⟨{ id := ⟨t, s.clock⟩
            content := ⟨w, d, t, s.clock⟩
            ctxType := t
            created_at := s.clock
            updated_at := s.clock
            metadata := { importance := some 1 }
            dimension := t
            activation_score := 1 }, ?_,
          rfl, rfl, rfl, rfl, rfl, rfl, rfl, rfl, rfl, rfl⟩
  rw [show save s t w d = remember s w d t from rfl, remember_contexts s w d t hRO]
  exact mem_insertOrReplace_self _ _

/-- Witness for C3 (amended) at a concrete empty store. -/
theorem c3_save_default_metadata_witness :
    ∃ c ∈ (save (⟨0, false, [], [], []⟩ : Store) "task" "Build indexer"
            Details.dnone).1.contexts,
      c.id = ⟨"task", 0⟩
      ∧ c.metadata = { importance := some 1 }
      ∧ c.metadata.decay = none
      ∧ c.metadata.decay_exempt = none
      ∧ c.metadata.decay.getD 1 = 1
      ∧ c.metadata.decay_exempt.getD false = false
      ∧ c.content = ⟨"Build indexer", Details.dnone, "task", 0⟩
      ∧ c.ctxType = "task" ∧ c.created_at = 0 ∧ c.updated_at = 0 :=
  c3_save_default_metadata (⟨0, false, [], [], []⟩ : Store) "Build indexer"
    Details.dnone "task" rfl

/-- Selection after a decay pass ignores the exemption flag: for an
exempt context (whose decay resolves to 1.0, so the low-decay rule
cannot fire) with importance not below 0.2, `_archive_old` selects it
exactly when it is older than the cutoff. -/
theorem archiveSelect_after_decay_exempt (cutoff now : Int) (c : Context)
    (hex : c.metadata.decay_exempt.getD false = true)
    (himp : ∀ v, c.metadata.importance = some v → ¬(v < mkRat 1 5)) :
    archiveSelect cutoff (decayCtx now c) = decide (c.created_at < cutoff) := by
  have hcr : (decayCtx now c).created_at = c.created_at := by
    unfold decayCtx
    split <;> rfl
  have himp2 : (decayCtx now c).metadata.importance = c.metadata.importance := by
    unfold decayCtx
    split <;> rfl
  have hdec : (decayCtx now c).metadata.decay = none
      ∨ (decayCtx now c).metadata.decay = some 1 := by
    have ht : decayTarget now c = 1 := by simp [decayTarget, hex]
    unfold decayCtx
    rw [ht]
    by_cases h : (1 : ℚ) ≠ c.metadata.decay.getD 1
    · rw [if_pos h]
      right
      rfl
    · rw [if_neg h]
      push_neg at h
      cases hd : c.metadata.decay with
      | none => exact Or.inl rfl
      | some d =>
          rw [hd] at h
          simp only [Option.getD_some] at h
          exact Or.inr (by rw [← h])
  have hone : ¬((1 : ℚ) < mkRat 1 5) := by decide
  unfold archiveSelect
  rw [hcr, himp2]
  rcases hdec with h | h
  · rw [h]
    cases him : c.metadata.importance with
    | none => simp
    | some v => simp [himp v him]
  · rw [h]
    cases him : c.metadata.importance with
    | none => simp [hone]
    | some v => simp [himp v him, hone]

/-- C4 counterexample: the decay-exempt context `cExempt`, 100 days old
with its memory YAML present (the state every writable `Save` leaves),
is selected by `_archive_old` through its age test; the sweep writes its
ArchiveEntry — an archive record of the exempt context now exists,
refuting "never moves it to the archive" — and then aborts inside
`shutil.move` (destination just written), leaving the row active too;
375 days later `_forget_old` deletes that entry (mtime old, count 0),
refuting "ForgetOld never deletes it". -/
theorem c4_counterexample :
    cExempt.metadata.decay_exempt = some true
    ∧ (archiveOld sExempt none).2 = Except.error moveError
    ∧ (archiveOld sExempt none).1.contexts = [cExempt]
    ∧ (archiveOld sExempt none).1.archive.map (fun e => e.id)
        = [⟨"rule", 0⟩]
    ∧ (forgetOld { (archiveOld sExempt none).1 with
          clock := (archiveOld sExempt none).1.clock + 9000 } none).1.archive
        = [] :=
  ⟨by decide, rfl, by decide, by decide, by decide⟩

/-- C4 (amended): `_archive_old` never consults the exemption flag.
After a decay pass an exempt context cannot be selected through the
low-decay rule (decay resolves to 1.0): with importance not below 0.2
it is selected exactly when older than the cutoff.  For a selected
context whose memory YAML exists (the normal case) the sweep writes its
ArchiveEntry and then aborts in `shutil.move`, leaving the row active
beside the new entry; `_forget_old` later deletes such entries
regardless of exemption (the flag is not even recorded in them). -/
theorem c4_exempt_not_protected :
    (∀ (cutoff now : Int) (c : Context),
        c.metadata.decay_exempt.getD false = true →
        (∀ v, c.metadata.importance = some v → ¬(v < mkRat 1 5)) →
        archiveSelect cutoff (decayCtx now c) = decide (c.created_at < cutoff))
    ∧ ∀ (s : Store) (c : Context) (rest : List Context) (dOv : Option Nat),
        s.contexts.filter
            (archiveSelect (s.clock - ((dOv.getD archiveDays : Nat) : Int) * 24))
          = c :: rest →
        c.id ∈ s.files →
        (archiveOld s dOv).2 = Except.error moveError
        ∧ (archiveOld s dOv).1.contexts = s.contexts
        ∧ (archiveOld s dOv).1.archive
            = insertArchive s.archive (mkArchiveEntry (s.clock + 1) c) := by
  constructor
  · exact archiveSelect_after_decay_exempt
  · intro s c rest dOv hsel hfile
    have hunf : archiveOld s dOv
        = archiveLoop { s with clock := s.clock + 1 } 0 (c :: rest) := by
      simp only [archiveOld, readClock]
      rw [show ({ s with clock := s.clock + 1 } : Store).contexts
          = s.contexts from rfl, hsel]
    have hstep : archiveLoop { s with clock := s.clock + 1 } 0 (c :: rest)
        = ({ s with
              clock := s.clock + 1 + 1
              archive := insertArchive s.archive
                (mkArchiveEntry (s.clock + 1) c) },
           Except.error moveError) := by
      rw [archiveLoop]
      simp only [readClock]
      rw [if_pos (show c.id ∈ s.files from hfile)]
    rw [hunf, hstep]
    exact ⟨rfl, rfl, rfl⟩

/-- Witness for C4 (amended) at the concrete exempt context and store:
selection reduces to the age test, and the sweep on the selected exempt
context errors out with its ArchiveEntry written and the row intact. -/
theorem c4_exempt_not_protected_witness :
    (archiveSelect 240 (decayCtx 2400 cExempt)
      = decide (cExempt.created_at < 240))
    ∧ ((archiveOld sExempt none).2 = Except.error moveError
       ∧ (archiveOld sExempt none).1.contexts = sExempt.contexts
       ∧ (archiveOld sExempt none).1.archive
           = insertArchive sExempt.archive
               (mkArchiveEntry (sExempt.clock + 1) cExempt)) :=
  ⟨c4_exempt_not_protected.1 240 2400 cExempt (by decide)
    (fun v hv => by
      have hv1 : (1 : ℚ) = v := by
        simpa [cExempt] using hv
      rw [← hv1]
      decide),
   c4_exempt_not_protected.2 sExempt cExempt [] none (by decide) (by decide)⟩

/-- C5 counterexample: on a read-only store, `save` returns an id while
persisting nothing; there is no `StorageUnavailable` failure. -/
theorem c5_counterexample :
    (remember (⟨0, true, [], [], []⟩ : Store) "x" Details.dnone "task").1.contexts = []
    ∧ (remember (⟨0, true, [], [], []⟩ : Store) "x" Details.dnone "task").2
        = ⟨"task", 0⟩ := by decide

/-- C5 (amended): when the backing connection is read-only,
`_execute_safe` swallows the error, so `save` completes as a silent
no-op: the contexts table and archive are unchanged and the caller still
receives the freshly minted id; no error of any kind is surfaced. -/
theorem c5_readonly_silent_noop (s : Store) (w : String) (d : Details)
    (t : String) (hRO : s.readOnly = true) :
    (remember s w d t).1.contexts = s.contexts
    ∧ (remember s w d t).1.archive = s.archive
    ∧ (remember s w d t).2 = ⟨t, s.clock⟩ := by
  refine ⟨?_, ?_, remember_snd s w d t⟩ <;> simp [remember, readClock, hRO]

/-- Witness for C5 (amended) at a concrete read-only store. -/
theorem c5_readonly_silent_noop_witness :
    (remember (⟨3, true, [cNote10d], [], []⟩ : Store) "y" Details.dnone "note").1.contexts
        = [cNote10d]
    ∧ (remember (⟨3, true, [cNote10d], [], []⟩ : Store) "y" Details.dnone "note").1.archive
        = []
    ∧ (remember (⟨3, true, [cNote10d], [], []⟩ : Store) "y" Details.dnone "note").2
        = ⟨"note", 3⟩ :=
  c5_readonly_silent_noop (⟨3, true, [cNote10d], [], []⟩ : Store) "y"
    Details.dnone "note" rfl

/-- C6 counterexample: an archive entry whose archived age (300 days)
far exceeds `N = 100` days with `retrieval_count = 1 < 2` is NOT
deleted, because `_forget_old` tests the file modification time, which
the retrieval rewrite refreshed. -/
theorem c6_counterexample :
    (sStale.clock - eStale.archived_at > (100 : Int) * 24
      ∧ eStale.retrievalCount < 2)
    ∧ eStale ∈ (forgetOld sStale (some 100)).1.archive := by decide

/-- C6 (amended): `ForgetOld(days = N)` deletes an entry iff the time
since its last file write (its archival, or its last retrieval rewrite)
exceeds N days and `retrieval_count < 2`; in particular every entry with
`retrieval_count ≥ 2` is retained, whatever its age. -/
theorem c6_forget_by_mtime (s : Store) (N : Nat) (e : ArchiveEntry)
    (he : e ∈ s.archive) :
    (e ∈ (forgetOld s (some N)).1.archive
      ↔ ¬(e.mtime < s.clock - (N : Int) * 24 ∧ e.retrievalCount < 2))
    ∧ (2 ≤ e.retrievalCount → e ∈ (forgetOld s (some N)).1.archive) := by
  have harch : (forgetOld s (some N)).1.archive
      = s.archive.filter (fun e =>
          !(decide (e.mtime < s.clock - (N : Int) * 24)
            && decide (e.retrievalCount < 2))) := by
    simp [forgetOld, readClock]
  constructor
  · rw [harch, List.mem_filter]
    simp [he]
    omega
  · intro h2
    rw [harch, List.mem_filter]
    refine ⟨he, ?_⟩
    simp
    omega

/-- Witness for C6 (amended): `eStale` is retained exactly because its
mtime is recent, and a twice-retrieved entry is retained. -/
theorem c6_forget_by_mtime_witness :
    (eStale ∈ (forgetOld sStale (some 100)).1.archive
      ↔ ¬(eStale.mtime < sStale.clock - (100 : Int) * 24
          ∧ eStale.retrievalCount < 2))
    ∧ (2 ≤ eStale.retrievalCount →
        eStale ∈ (forgetOld sStale (some 100)).1.archive) :=
  c6_forget_by_mtime sStale 100 eStale (by decide)

/-- C7 (confirmed): for an archive entry whose searchable text matches
the (nonempty) term, one `_retrieve_from_archive` call bumps its
`retrieval_count` by exactly 1, keeps the entry in the archive at its
place with its identity and content fields intact, and inserts a fresh
active context carrying the original type, what and details. -/
theorem c7_retrieve_from_archive (s : Store) (term : String) (i : Nat)
    (e : ArchiveEntry) (hterm : ¬ term = "") (hRO : s.readOnly = false)
    (he : s.archive[i]? = some e) (hm : matchesTerm term e = true) :
    (retrieveFromArchive s term).1.archive.length = s.archive.length
    ∧ (∃ e2, (retrieveFromArchive s term).1.archive[i]? = some e2
        ∧ e2.id = e.id ∧ e2.what = e.what ∧ e2.details = e.details
        ∧ e2.ctype = e.ctype
        ∧ e2.retrievalCount = e.retrievalCount + 1)
    ∧ ∃ c ∈ (retrieveFromArchive s term).1.contexts,
        c.content.what = e.what ∧ c.content.details = e.details
        ∧ c.content.ctype = e.ctype ∧ s.clock ≤ c.id.ts := by
  have hunf : retrieveFromArchive s term
      = ({ (s.archive.foldl (retrieveStep term) ([], s, [])).2.1 with
            archive := (s.archive.foldl (retrieveStep term) ([], s, [])).1 },
         (s.archive.foldl (retrieveStep term) ([], s, [])).2.2) := by
    simp [retrieveFromArchive, hterm]
  refine ⟨?_, ?_, ?_⟩
  · rw [hunf]
    show (s.archive.foldl (retrieveStep term) ([], s, [])).1.length
        = s.archive.length
    rw [retrieve_fold_length]
    simp
  · rcases retrieve_fold_entry term s.archive [] s [] i e he with
      ⟨e2, hidx, h1, h2, h3, h4, h5⟩
    rw [show (List.length ([] : List ArchiveEntry)) + i = i from by simp] at hidx
    rw [hm] at h5
    simp only [if_true] at h5
    refine ⟨e2, ?_, h1, h2, h3, h4, h5⟩
    rw [hunf]
    exact hidx
  · rcases retrieve_fold_inserts term s.archive [] s [] i e he hm hRO with
      ⟨c, hmem, h1, h2, h3, h4⟩
    refine ⟨c, ?_, h1, h2, h3, h4⟩
    rw [hunf]
    exact hmem

/-- Witness for C7 at a concrete one-entry archive matching the term. -/
theorem c7_retrieve_from_archive_witness :
    (retrieveFromArchive sStale "note").1.archive.length = sStale.archive.length
    ∧ (∃ e2, (retrieveFromArchive sStale "note").1.archive[0]? = some e2
        ∧ e2.id = eStale.id ∧ e2.what = eStale.what
        ∧ e2.details = eStale.details ∧ e2.ctype = eStale.ctype
        ∧ e2.retrievalCount = eStale.retrievalCount + 1)
    ∧ ∃ c ∈ (retrieveFromArchive sStale "note").1.contexts,
        c.content.what = eStale.what ∧ c.content.details = eStale.details
        ∧ c.content.ctype = eStale.ctype ∧ sStale.clock ≤ c.id.ts :=
  c7_retrieve_from_archive sStale "note" 0 eStale (by decide) rfl
    (by decide) (by decide)

/-- C8 counterexample: consolidating twelve cold `"note"` contexts
creates exactly one `"note_consolidated"` context, but its metadata does
NOT list the merged items: the summary dictionary is passed as the third
`save` argument and lands in the content `details`, while the stored
metadata is the default `{"importance": 1.0}`. -/
theorem c8_counterexample :
    ((consolidateMemory sTwelve).1.contexts.filter
        (fun c => decide (c.ctxType = "note_consolidated"))).map
        (fun c => (c.metadata.items, c.metadata.itemCount))
      = [(none, none)] := by decide

/-- C8 (amended): on a store of twelve cold contexts of one type (in
creation order, distinct ids), one `_consolidate_memory` call demotes
the 7 oldest to importance 0.1 without deleting them, leaves the 5 most
recent untouched, and appends exactly one new `{type}_consolidated`
context whose content details (not metadata) carry the 7 merged `what`
strings and their count; with 10 or fewer cold contexts of the type
nothing changes. -/
theorem c8_consolidate (s : Store) (t : String)
    (hRO : s.readOnly = false)
    (htype : ∀ c ∈ s.contexts, c.ctxType = t)
    (hcold : ∀ c ∈ s.contexts, c.created_at < s.clock - coldHours)
    (hsort : List.Sorted (fun a b : Context => a.created_at ≤ b.created_at)
      s.contexts)
    (hlen : s.contexts.length = 12)
    (hids : (s.contexts.map (fun c => c.id)).Nodup)
    (hfresh : ∀ c ∈ s.contexts, c.id.ctype ≠ t ++ "_consolidated") :
    ((consolidateMemory s).1.contexts
      = (s.contexts.take 7).map demote ++ s.contexts.drop 7
        ++ [{ id := ⟨t ++ "_consolidated", s.clock + 1 + 1⟩
              content := ⟨consolidatedWhat t,
                Details.consolidated
                  ((s.contexts.take 7).map (fun c => c.content.what)) 7
                  (s.clock + 1),
                t ++ "_consolidated", s.clock + 1 + 1⟩
              ctxType := t ++ "_consolidated"
              created_at := s.clock + 1 + 1
              updated_at := s.clock + 1 + 1
              metadata := { importance := some 1 }
              dimension := t ++ "_consolidated"
              activation_score := 1 }]
    ∧ (consolidateMemory s).2 = 7
    ∧ (consolidateMemory s).1.archive = s.archive)
    ∧ ∀ (s2 : Store) (t2 : String), s2.contexts ≠ [] →
        (∀ c ∈ s2.contexts, c.ctxType = t2) → s2.contexts.length ≤ 10 →
        (consolidateMemory s2).1.contexts = s2.contexts
        ∧ (consolidateMemory s2).2 = 0
        ∧ (consolidateMemory s2).1.archive = s2.archive := by
  constructor
  · have hne : s.contexts ≠ [] := by
      intro h
      rw [h] at hlen
      simp at hlen
    have hty : distinctTypes s.contexts = [t] :=
      distinctTypes_const _ _ hne htype
    have hunf : consolidateMemory s
        = consolidateType (s.clock - coldHours)
            ({ s with clock := s.clock + 1 }, 0) t := by
      simp only [consolidateMemory, readClock]
      rw [show ({ s with clock := s.clock + 1 } : Store).contexts
          = s.contexts from rfl, hty, List.foldl_cons, List.foldl_nil]
    rcases consolidateType_full { s with clock := s.clock + 1 } t
      (s.clock - coldHours) 0 hRO htype hcold hsort hlen hids hfresh with
      ⟨hc1, hc2, hc3, hc4, hc5⟩
    refine ⟨?_, ?_, ?_⟩
    · rw [hunf, hc1]
    · rw [hunf, hc5]
    · rw [hunf, hc2]
  · intro s2 t2 hne2 htype2 hlen2
    have hty2 : distinctTypes s2.contexts = [t2] :=
      distinctTypes_const _ _ hne2 htype2
    have hunf2 : consolidateMemory s2
        = consolidateType (s2.clock - coldHours)
            ({ s2 with clock := s2.clock + 1 }, 0) t2 := by
      simp only [consolidateMemory, readClock]
      rw [show ({ s2 with clock := s2.clock + 1 } : Store).contexts
          = s2.contexts from rfl, hty2, List.foldl_cons, List.foldl_nil]
    rw [hunf2, consolidateType_small { s2 with clock := s2.clock + 1 } t2
      (s2.clock - coldHours) 0 hlen2]
    exact ⟨rfl, rfl, rfl⟩

/-- Witness for C8 (amended) at the concrete twelve-note store and a
three-note store. -/
theorem c8_consolidate_witness :
    ((consolidateMemory sTwelve).1.contexts
      = (sTwelve.contexts.take 7).map demote ++ sTwelve.contexts.drop 7
        ++ [{ id := ⟨"note" ++ "_consolidated", sTwelve.clock + 1 + 1⟩
              content := ⟨consolidatedWhat "note",
                Details.consolidated
                  ((sTwelve.contexts.take 7).map (fun c => c.content.what)) 7
                  (sTwelve.clock + 1),
                "note" ++ "_consolidated", sTwelve.clock + 1 + 1⟩
              ctxType := "note" ++ "_consolidated"
              created_at := sTwelve.clock + 1 + 1
              updated_at := sTwelve.clock + 1 + 1
              metadata := { importance := some 1 }
              dimension := "note" ++ "_consolidated"
              activation_score := 1 }]
    ∧ (consolidateMemory sTwelve).2 = 7
    ∧ (consolidateMemory sTwelve).1.archive = sTwelve.archive)
    ∧ (consolidateMemory (⟨2000, false, [mkNote 0, mkNote 1, mkNote 2], [], []⟩ : Store)).1.contexts
        = [mkNote 0, mkNote 1, mkNote 2] :=
  ⟨(c8_consolidate sTwelve "note" rfl (by decide) (by decide) (by decide)
      (by decide) (by decide) (by decide)).1,
   ((c8_consolidate sTwelve "note" rfl (by decide) (by decide) (by decide)
      (by decide) (by decide) (by decide)).2
      (⟨2000, false, [mkNote 0, mkNote 1, mkNote 2], [], []⟩ : Store) "note"
      (by decide) (by decide) (by decide)).1⟩

/-- C9 counterexample: two `Save` calls of the same type that observe
the same wall clock receive the same id, and the second
`INSERT OR REPLACE` destroys the first row: only the second content
survives. -/
theorem c9_counterexample :
    firstSave.2 = secondSave.2
    ∧ secondSave.1.contexts.map (fun c => c.content.what) = ["second"] := by
  decide

/-- C9 (amended): the id `save` assigns is determined by exactly the pair
(type, creation timestamp): two creations collide iff both coincide, in
which case the replace destroys the earlier row; rows with any other id
are untouched by a `save`. -/
theorem c9_id_determined_by_type_and_clock :
    (∀ (s1 s2 : Store) (w1 w2 : String) (d1 d2 : Details) (t1 t2 : String),
        (remember s1 w1 d1 t1).2 = (remember s2 w2 d2 t2).2
          ↔ t1 = t2 ∧ s1.clock = s2.clock)
    ∧ ∀ (s : Store) (w : String) (d : Details) (t : String) (c : Context),
        s.readOnly = false → c ∈ s.contexts → c.id ≠ ⟨t, s.clock⟩ →
        c ∈ (remember s w d t).1.contexts := by
  constructor
  · intro s1 s2 w1 w2 d1 d2 t1 t2
    rw [remember_snd, remember_snd, CtxId.mk.injEq]
  · intro s w d t c hRO hc hne
    rw [remember_contexts s w d t hRO]
    exact mem_insertOrReplace_of_ne _ _ _ hc hne

/-- Witness for C9 (amended): distinct clocks give distinct ids, and an
existing row with another id survives a save. -/
theorem c9_id_determined_witness :
    ¬((remember (⟨1, false, [], [], []⟩ : Store) "a" Details.dnone "task").2
        = (remember (⟨2, false, [], [], []⟩ : Store) "b" Details.dnone "task").2)
    ∧ cNote10d ∈ (remember (⟨9, false, [cNote10d], [], []⟩ : Store) "c"
        Details.dnone "task").1.contexts :=
  ⟨fun h => by
      have := (c9_id_determined_by_type_and_clock.1
        (⟨1, false, [], [], []⟩ : Store) (⟨2, false, [], [], []⟩ : Store)
        "a" "b" Details.dnone Details.dnone "task" "task").mp h
      exact absurd this.2 (by decide),
   c9_id_determined_by_type_and_clock.2 (⟨9, false, [cNote10d], [], []⟩ : Store)
     "c" Details.dnone "task" cNote10d rfl (by decide) (by decide)⟩

/-- C10 (confirmed): on a writable store, `mark_important(id, v)` of an
existing id rewrites exactly the `importance` key of that row and leaves
everything else in place: every other metadata key, every other field
(including `updated_at`, so recall order is unaffected), every other
row, the archive and the clock. -/
theorem c10_mark_important_frame (s : Store) (i : CtxId) (v : ℚ)
    (hRO : s.readOnly = false) (hmem : ∃ c ∈ s.contexts, c.id = i) :
    (markImportant s i v).contexts
      = s.contexts.map (fun c =>
          if c.id = i then
            { c with metadata := { c.metadata with importance := some v } }
          else c)
    ∧ (markImportant s i v).archive = s.archive
    ∧ (markImportant s i v).clock = s.clock
    ∧ (markImportant s i v).readOnly = s.readOnly
    ∧ ∀ c ∈ s.contexts, c.id ≠ i → c ∈ (markImportant s i v).contexts := by
  have hany : s.contexts.any (fun c => decide (c.id = i)) = true := by
    rcases hmem with ⟨c, hc, hci⟩
    exact List.any_eq_true.mpr ⟨c, hc, by simp [hci]⟩
  have hm : markImportant s i v
      = { s with
          contexts := s.contexts.map (fun c =>
            if c.id = i then
              { c with metadata := { c.metadata with importance := some v } }
            else c) } := by
    unfold markImportant
    rw [hany, if_pos rfl, hRO]
    rfl
  refine ⟨by rw [hm], by rw [hm], by rw [hm], by rw [hm], ?_⟩
  intro c hc hne
  rw [hm]
  exact List.mem_map.mpr ⟨c, hc, by simp [hne]⟩

/-- Witness for C10 at a concrete one-row store. -/
theorem c10_mark_important_frame_witness :
    (markImportant sNote10d ⟨"note", 0⟩ (mkRat 1 2)).contexts
      = sNote10d.contexts.map (fun c =>
          if c.id = ⟨"note", 0⟩ then
            { c with metadata := { c.metadata with importance := some (mkRat 1 2) } }
          else c)
    ∧ (markImportant sNote10d ⟨"note", 0⟩ (mkRat 1 2)).archive = sNote10d.archive
    ∧ (markImportant sNote10d ⟨"note", 0⟩ (mkRat 1 2)).clock = sNote10d.clock
    ∧ (markImportant sNote10d ⟨"note", 0⟩ (mkRat 1 2)).readOnly = sNote10d.readOnly
    ∧ ∀ c ∈ sNote10d.contexts, c.id ≠ ⟨"note", 0⟩ →
        c ∈ (markImportant sNote10d ⟨"note", 0⟩ (mkRat 1 2)).contexts :=
  c10_mark_important_frame sNote10d ⟨"note", 0⟩ (mkRat 1 2) rfl
    ⟨cNote10d, by decide, rfl⟩

end CtxSpec
